import Mathlib

/-!
Verification of the tBTC off-chain client coordination layer: a shallow
embedding, in Lean, of the DKG result submission routines, the redemption
transaction assembly, the signing-group member-fate reconciliation, and the
SPV maintainer classification and batch loops, together with theorems about
the properties these components are expected to satisfy.

Machine integers of the source (Go `uint64` and `int64`) are modelled as
`Nat` and `Int`; wrap-around is made explicit (`% 2 ^ 64` and a signed
reinterpretation) exactly where the source mixes the two types or relies on
unsigned wrap-around.
-/

/-- Signed reinterpretation of a 64-bit unsigned value: models a Go
`int64(x)` conversion applied to a `uint64` expression. -/
def toInt64 (n : Nat) : Int :=
  let m : Nat := n % 2 ^ 64
  if m < 2 ^ 63 then (m : Int) else (m : Int) - 2 ^ 64

/-- Go `uint64` subtraction `a - b`, which wraps around modulo `2 ^ 64`. -/
def uint64Sub (a b : Nat) : Nat :=
  ((a % 2 ^ 64) + 2 ^ 64 - (b % 2 ^ 64)) % 2 ^ 64

/-- A Bitcoin script, as a byte list (`bitcoin.Script`). -/
abbrev Script := List Nat

/-- A tBTC redemption request (`RedemptionRequest` in `pkg/tbtc/redemption.go`).
Amount fields are `uint64` satoshi values; the redeemer host-chain address and
the request timestamp play no role in the verified functions and are omitted. -/
structure RedemptionRequest where
  redeemerOutputScript : Script
  requestedAmount : Nat
  treasuryFee : Nat
  txMaxFee : Nat
deriving DecidableEq, Repr, Inhabited

/-- The fee distribution function returned by `withRedemptionTotalFee`
(`pkg/tbtc/redemption.go`): `remainder := totalFee % requestsCount`,
`feePerRequest := (totalFee - remainder) / requestsCount`, every request gets
`feePerRequest` and the last request additionally gets the remainder.
Go `int64` arithmetic uses truncated division and remainder, hence
`Int.tdiv` and `Int.tmod`. -/
def withRedemptionTotalFee (totalFee : Int) (requests : List RedemptionRequest) : List Int :=
  let requestsCount : Int := requests.length
  let remainder := Int.tmod totalFee requestsCount
  let feePerRequest := Int.tdiv (totalFee - remainder) requestsCount
  (List.range requests.length).map fun i =>
    if i = requests.length - 1 then feePerRequest + remainder else feePerRequest

lemma range_map_ite_last (n m : Nat) (q r : Int) (hnm : n ≤ m) :
    (List.range n).map (fun i => if i = m then q + r else q) = List.replicate n q := by
  induction n with
  | zero => simp
  | succ k ih =>
    rw [List.range_succ, List.map_append, ih (Nat.le_of_succ_le hnm)]
    have hk : k ≠ m := by omega
    simp [hk, List.replicate_succ']

lemma range_map_ite (n : Nat) (hn : 1 ≤ n) (q r : Int) :
    (List.range n).map (fun i => if i = n - 1 then q + r else q) =
      List.replicate (n - 1) q ++ [q + r] := by
  obtain ⟨k, rfl⟩ : ∃ k, n = k + 1 := ⟨n - 1, by omega⟩
  rw [List.range_succ, List.map_append, range_map_ite_last k (k + 1 - 1) q r (by omega)]
  simp

lemma withRedemptionTotalFee_eq (totalFee : Int) (requests : List RedemptionRequest)
    (hne : requests ≠ []) :
    withRedemptionTotalFee totalFee requests =
      List.replicate (requests.length - 1)
          (Int.tdiv (totalFee - Int.tmod totalFee requests.length) requests.length) ++
        [Int.tdiv (totalFee - Int.tmod totalFee requests.length) requests.length +
          Int.tmod totalFee requests.length] := by
  have hn : 1 ≤ requests.length := List.length_pos.mpr hne
  unfold withRedemptionTotalFee
  exact range_map_ite requests.length hn _ _

/-- C2: for every non-empty request list of length N and non-negative total
fee, `withRedemptionTotalFee` yields N shares: the first N - 1 each equal
`⌊totalFee / N⌋`, the last equals `⌊totalFee / N⌋ + totalFee % N`, and the
shares sum to `totalFee`. -/
theorem withRedemptionTotalFee_conserves (totalFee : Int) (requests : List RedemptionRequest)
    (hne : requests ≠ []) (hfee : 0 ≤ totalFee) :
    (withRedemptionTotalFee totalFee requests).length = requests.length ∧
    withRedemptionTotalFee totalFee requests =
      List.replicate (requests.length - 1) (totalFee / (requests.length : Int)) ++
        [totalFee / (requests.length : Int) + totalFee % (requests.length : Int)] ∧
    (withRedemptionTotalFee totalFee requests).sum = totalFee := by
  have hn : 1 ≤ requests.length := List.length_pos.mpr hne
  set N : Int := (requests.length : Int) with hN
  have hNpos : 0 < N := by
    simp only [hN]
    exact_mod_cast hn
  have hNnz : N ≠ 0 := ne_of_gt hNpos
  have htmod : Int.tmod totalFee N = totalFee % N :=
    Int.tmod_eq_emod hfee (le_of_lt hNpos)
  have hdive : totalFee - Int.tmod totalFee N = N * (totalFee / N) := by
    rw [htmod]
    have := Int.ediv_add_emod totalFee N
    omega
  have htdiv : Int.tdiv (totalFee - Int.tmod totalFee N) N = totalFee / N := by
    rw [hdive, Int.mul_tdiv_cancel_left _ hNnz]
  have heq := withRedemptionTotalFee_eq totalFee requests hne
  rw [← hN, htdiv, htmod] at heq
  refine ⟨?_, heq, ?_⟩
  · rw [heq]
    simp
    omega
  · rw [heq, List.sum_append, List.sum_replicate, nsmul_eq_mul]
    simp only [List.sum_cons, List.sum_nil, add_zero]
    have hcast : ((requests.length - 1 : Nat) : Int) = N - 1 := by
      simp only [hN]
      push_cast [Nat.cast_sub hn]
      ring
    rw [hcast]
    linear_combination Int.ediv_add_emod totalFee N

/-- The DKG on-chain state machine as observed by the client
(`DKGState` in `pkg/tbtc/chain.go`). -/
inductive DKGState where
  | Idle
  | AwaitingSeed
  | AwaitingResult
  | Challenge
deriving DecidableEq, Repr

/-- Chain configuration consumed by the legacy tBTC node (`ChainConfig`,
second `chain.go` snapshot, plus the `ResultPublicationBlockStep` field read
by `setupEligibilityQueue`). -/
structure ChainConfig where
  GroupSize : Nat
  HonestThreshold : Nat
  ResultPublicationBlockStep : Nat
deriving DecidableEq, Repr

/-- Group parameters consumed by the ECDSA DKG result submitter
(`drs.groupParameters.GroupQuorum` in `pkg/tbtc/dkg_submit.go`). -/
structure GroupParameters where
  GroupQuorum : Nat
deriving DecidableEq, Repr

/-- Observable outcome of a `SubmitResult` run: an error return, a clean
`nil` return without any `SubmitDKGResult` call, or a `SubmitDKGResult`
call performed while the chain is at the given block. -/
inductive SubmitOutcome where
  | errorOut : String → SubmitOutcome
  | noSubmission : SubmitOutcome
  | submitted : Nat → SubmitOutcome
deriving DecidableEq, Repr

/-- The block at which a member becomes eligible to submit the DKG result,
as computed by `setupEligibilityQueue` (`part_001`):
`startBlockNumber + (memberIndex - 1) * ResultPublicationBlockStep`. -/
def eligibleBlockHeight (cfg : ChainConfig) (startBlockNumber memberIndex : Nat) : Nat :=
  startBlockNumber + (memberIndex - 1) * cfg.ResultPublicationBlockStep

/-- The legacy `dkgResultSubmitter.SubmitResult` (`part_001`). Environment:
`waiterFires h` is the chain block at which a `BlockHeightWaiter h` delivers
(always `≥ h`), and `otherFirst` tells whether the `DKGResultSubmitted`
subscription delivers before the eligibility waiter in the `select`.
The routine: errors below the signature threshold, returns cleanly when DKG
is no longer awaiting a result or another member submitted first, and
otherwise calls `SubmitDKGResult` once the eligibility waiter fires. -/
def submitResultLegacy (cfg : ChainConfig) (dkgState : DKGState) (signaturesCount : Nat)
    (startBlockNumber memberIndex : Nat) (waiterFires : Nat → Nat)
    (otherFirst : Bool) : SubmitOutcome :=
  if signaturesCount < cfg.HonestThreshold then
    SubmitOutcome.errorOut "could not submit result with signatures below honest threshold"
  else if dkgState ≠ DKGState.AwaitingResult then
    SubmitOutcome.noSubmission
  else if otherFirst then
    SubmitOutcome.noSubmission
  else
    SubmitOutcome.submitted (waiterFires (eligibleBlockHeight cfg startBlockNumber memberIndex))

/-- The ECDSA `dkgResultSubmitter.SubmitResult` (`pkg/tbtc/dkg_submit.go`).
`assembleOk` and `isValid` model the fallible `AssembleDKGResult` and
`IsDKGResultValid` chain calls; the submission delay is index-based starting
from the current block; `ctxCancelled` models `ctx.Err() != nil` after the
wait (the upstream cancels the context when the result is submitted by
another member). -/
def tbtcSubmitResult (groupParameters : GroupParameters) (dkgState : DKGState)
    (signaturesCount : Nat) (assembleOk isValid : Bool) (currentBlock memberIndex : Nat)
    (dkgResultSubmissionDelayStepBlocks : Nat) (waiterFires : Nat → Nat)
    (ctxCancelled : Bool) : SubmitOutcome :=
  if signaturesCount < groupParameters.GroupQuorum then
    SubmitOutcome.errorOut "could not submit result with signatures below group quorum"
  else if dkgState ≠ DKGState.AwaitingResult then
    SubmitOutcome.noSubmission
  else if !assembleOk then
    SubmitOutcome.errorOut "cannot assemble DKG chain result"
  else if !isValid then
    SubmitOutcome.errorOut "invalid DKG result"
  else
    let delayBlocks := (memberIndex - 1) * dkgResultSubmissionDelayStepBlocks
    let submissionBlock := currentBlock + delayBlocks
    if ctxCancelled then
      SubmitOutcome.noSubmission
    else
      SubmitOutcome.submitted (waiterFires submissionBlock)

/-- C1: for every member index in `[1, GroupSize]`, the legacy DKG result
submitter never calls `SubmitDKGResult` before block
`publicationStartBlock + (memberIndex - 1) * ResultPublicationBlockStep`,
where `publicationStartBlock` is the start block passed into `SubmitResult`:
whenever the routine submits at some block `b`, that bound is below `b`. -/
theorem dkg_eligibility_queue (cfg : ChainConfig) (dkgState : DKGState)
    (signaturesCount startBlockNumber memberIndex : Nat) (waiterFires : Nat → Nat)
    (otherFirst : Bool) (b : Nat)
    (_hmi1 : 1 ≤ memberIndex) (_hmi2 : memberIndex ≤ cfg.GroupSize)
    (hwaiter : ∀ h, h ≤ waiterFires h)
    (hsub : submitResultLegacy cfg dkgState signaturesCount startBlockNumber memberIndex
      waiterFires otherFirst = SubmitOutcome.submitted b) :
    startBlockNumber + (memberIndex - 1) * cfg.ResultPublicationBlockStep ≤ b := by
  unfold submitResultLegacy at hsub
  split at hsub
  · exact absurd hsub (by simp)
  · split at hsub
    · exact absurd hsub (by simp)
    · split at hsub
      · exact absurd hsub (by simp)
      · have hb : b = waiterFires (eligibleBlockHeight cfg startBlockNumber memberIndex) := by
          exact (SubmitOutcome.submitted.injEq _ _).mp hsub.symm
        rw [hb]
        exact hwaiter _

theorem dkg_eligibility_queue_witness :
    (1 : Nat) ≤ 3 ∧ (3 : Nat) ≤ 64 ∧ (∀ h : Nat, h ≤ id h) ∧
    submitResultLegacy ⟨64, 33, 10⟩ DKGState.AwaitingResult 33 100 3 id false =
      SubmitOutcome.submitted 120 ∧
    100 + (3 - 1) * 10 ≤ 120 :=
  ⟨by decide, by decide, fun h => Nat.le_refl h, by rfl,
    dkg_eligibility_queue ⟨64, 33, 10⟩ DKGState.AwaitingResult 33 100 3 id false 120
      (by decide) (by decide) (fun h => Nat.le_refl h) (by rfl)⟩

/-- C6: with fewer signatures than `GroupQuorum`, the ECDSA DKG result
submitter's `SubmitResult` returns an error and never calls
`SubmitDKGResult`, whatever the rest of the environment looks like. -/
theorem dkg_quorum_gate (groupParameters : GroupParameters) (dkgState : DKGState)
    (signaturesCount : Nat) (assembleOk isValid : Bool) (currentBlock memberIndex : Nat)
    (stepBlocks : Nat) (waiterFires : Nat → Nat) (ctxCancelled : Bool)
    (hq : signaturesCount < groupParameters.GroupQuorum) :
    tbtcSubmitResult groupParameters dkgState signaturesCount assembleOk isValid
        currentBlock memberIndex stepBlocks waiterFires ctxCancelled =
      SubmitOutcome.errorOut "could not submit result with signatures below group quorum" ∧
    ∀ b, tbtcSubmitResult groupParameters dkgState signaturesCount assembleOk isValid
        currentBlock memberIndex stepBlocks waiterFires ctxCancelled ≠
      SubmitOutcome.submitted b := by
  constructor
  · unfold tbtcSubmitResult
    simp [hq]
  · intro b
    unfold tbtcSubmitResult
    simp [hq]

theorem dkg_quorum_gate_witness :
    (32 : Nat) < 33 ∧
    tbtcSubmitResult ⟨33⟩ DKGState.AwaitingResult 32 true true 100 1 10 id false =
      SubmitOutcome.errorOut "could not submit result with signatures below group quorum" ∧
    ∀ b, tbtcSubmitResult ⟨33⟩ DKGState.AwaitingResult 32 true true 100 1 10 id false ≠
      SubmitOutcome.submitted b :=
  ⟨by decide,
    dkg_quorum_gate ⟨33⟩ DKGState.AwaitingResult 32 true true 100 1 10 id false (by decide)⟩

/-- C9: losing the race is a clean exit, not a failure. Provided the
signature gate passed, both DKG result submitters return `nil` without
calling `SubmitDKGResult` when the re-read DKG state is no longer
`AwaitingResult`; the ECDSA submitter also does so when its context is
cancelled after the wait (another member submitted), and the legacy
submitter when the `DKGResultSubmitted` subscription fires first. -/
theorem dkg_lost_race_clean_exit (groupParameters : GroupParameters) (cfg : ChainConfig)
    (dkgState : DKGState) (signaturesCount : Nat) (assembleOk isValid : Bool)
    (currentBlock startBlockNumber memberIndex stepBlocks : Nat) (waiterFires : Nat → Nat)
    (ctxCancelled otherFirst : Bool)
    (hq : groupParameters.GroupQuorum ≤ signaturesCount)
    (hh : cfg.HonestThreshold ≤ signaturesCount) :
    (dkgState ≠ DKGState.AwaitingResult →
      tbtcSubmitResult groupParameters dkgState signaturesCount assembleOk isValid
          currentBlock memberIndex stepBlocks waiterFires ctxCancelled =
        SubmitOutcome.noSubmission ∧
      submitResultLegacy cfg dkgState signaturesCount startBlockNumber memberIndex
          waiterFires otherFirst =
        SubmitOutcome.noSubmission) ∧
    (ctxCancelled = true → assembleOk = true → isValid = true →
      tbtcSubmitResult groupParameters dkgState signaturesCount assembleOk isValid
          currentBlock memberIndex stepBlocks waiterFires ctxCancelled =
        SubmitOutcome.noSubmission) ∧
    (otherFirst = true →
      submitResultLegacy cfg dkgState signaturesCount startBlockNumber memberIndex
          waiterFires otherFirst =
        SubmitOutcome.noSubmission) := by
  refine ⟨?_, ?_, ?_⟩
  · intro hstate
    constructor
    · unfold tbtcSubmitResult
      simp [Nat.not_lt.mpr hq, hstate]
    · unfold submitResultLegacy
      simp [Nat.not_lt.mpr hh, hstate]
  · intro hcc hak hv
    unfold tbtcSubmitResult
    subst hcc hak hv
    by_cases hstate : dkgState = DKGState.AwaitingResult
    · simp [Nat.not_lt.mpr hq, hstate]
    · simp [Nat.not_lt.mpr hq, hstate]
  · intro hof
    unfold submitResultLegacy
    subst hof
    by_cases hstate : dkgState = DKGState.AwaitingResult
    · simp [Nat.not_lt.mpr hh, hstate]
    · simp [Nat.not_lt.mpr hh, hstate]

theorem dkg_lost_race_clean_exit_witness :
    ((33 : Nat) ≤ 40 ∧ (30 : Nat) ≤ 40) ∧
    ((DKGState.Idle ≠ DKGState.AwaitingResult →
      tbtcSubmitResult ⟨33⟩ DKGState.Idle 40 true true 100 2 10 id true =
        SubmitOutcome.noSubmission ∧
      submitResultLegacy ⟨64, 30, 10⟩ DKGState.Idle 40 100 2 id true =
        SubmitOutcome.noSubmission) ∧
    (true = true → true = true → true = true →
      tbtcSubmitResult ⟨33⟩ DKGState.Idle 40 true true 100 2 10 id true =
        SubmitOutcome.noSubmission) ∧
    (true = true →
      submitResultLegacy ⟨64, 30, 10⟩ DKGState.Idle 40 100 2 id true =
        SubmitOutcome.noSubmission)) :=
  ⟨⟨by decide, by decide⟩,
    dkg_lost_race_clean_exit ⟨33⟩ ⟨64, 30, 10⟩ DKGState.Idle 40 true true 100 100 2 10 id
      true true (by decide) (by decide)⟩

/-- The legacy `DKGResultSubmittedEvent` (`part_001`): the submitted group
public key bytes, the misbehaved member indexes and the block number. -/
structure DKGResultSubmittedEvent where
  groupPublicKeyBytes : List Nat
  misbehaved : List Nat
  blockNumber : Nat
deriving DecidableEq, Repr

/-- `node.decideSigningGroupMemberFate` (`part_001`), with the observed event
already delivered: abandon when the local result's group public key differs
from the event's, abandon when the local member index is in the event's
misbehaved set, and otherwise keep the member IDs of the local result's
group with the misbehaved ones removed. -/
def decideSigningGroupMemberFate (memberIndex : Nat) (dkgResultEvent : DKGResultSubmittedEvent)
    (localGroupPublicKeyBytes : List Nat) (memberIDs : List Nat) : Except String (List Nat) :=
  if localGroupPublicKeyBytes ≠ dkgResultEvent.groupPublicKeyBytes then
    Except.error "could not stay in the group: unsupported group public key"
  else if dkgResultEvent.misbehaved.contains memberIndex then
    Except.error "could not stay in the group: considered as misbehaving"
  else
    Except.ok (memberIDs.filter (fun memberID => !dkgResultEvent.misbehaved.contains memberID))

/-- `node.resolveFinalSigningGroupOperators` (`part_001`): validate the
lengths, sort the operating member indexes ascending and map each index `i`
to `selectedOperators[i - 1]`. Operators are identified by their chain
addresses, modelled as naturals. -/
def resolveFinalSigningGroupOperators (cfg : ChainConfig) (selectedOperators : List Nat)
    (operatingMembersIndexes : List Nat) : Except String (List Nat) :=
  if selectedOperators.length ≠ cfg.GroupSize ∨
      operatingMembersIndexes.length < cfg.HonestThreshold then
    Except.error "invalid input parameters"
  else
    let sorted := List.insertionSort (fun a b => decide (a ≤ b)) operatingMembersIndexes
    Except.ok (sorted.map (fun operatingMemberID => selectedOperators.getD (operatingMemberID - 1) 0))

/-- C5: after a failed local publication, the member-fate decision abandons
exactly when the event's group public key differs from the local one or the
local member index is misbehaved; otherwise it returns the local group's
member IDs with the event's misbehaved set removed (characterised by
membership), and the final signing-group operators are
`selectedOperators[i - 1]` for `i` over a sorted-ascending permutation of
the operating member indexes. -/
theorem member_fate_and_final_operators (memberIndex : Nat)
    (dkgResultEvent : DKGResultSubmittedEvent) (localGroupPublicKeyBytes : List Nat)
    (memberIDs : List Nat) (cfg : ChainConfig) (selectedOperators : List Nat)
    (operatingMembersIndexes : List Nat)
    (hlen : selectedOperators.length = cfg.GroupSize)
    (hthr : cfg.HonestThreshold ≤ operatingMembersIndexes.length) :
    (localGroupPublicKeyBytes ≠ dkgResultEvent.groupPublicKeyBytes →
      ∃ msg, decideSigningGroupMemberFate memberIndex dkgResultEvent
        localGroupPublicKeyBytes memberIDs = Except.error msg) ∧
    (memberIndex ∈ dkgResultEvent.misbehaved →
      ∃ msg, decideSigningGroupMemberFate memberIndex dkgResultEvent
        localGroupPublicKeyBytes memberIDs = Except.error msg) ∧
    (localGroupPublicKeyBytes = dkgResultEvent.groupPublicKeyBytes →
      memberIndex ∉ dkgResultEvent.misbehaved →
      decideSigningGroupMemberFate memberIndex dkgResultEvent
          localGroupPublicKeyBytes memberIDs =
        Except.ok (memberIDs.filter
          (fun memberID => !dkgResultEvent.misbehaved.contains memberID)) ∧
      ∀ x, x ∈ memberIDs.filter (fun memberID => !dkgResultEvent.misbehaved.contains memberID) ↔
        x ∈ memberIDs ∧ x ∉ dkgResultEvent.misbehaved) ∧
    (∃ sorted, sorted.Perm operatingMembersIndexes ∧ List.Sorted (· ≤ ·) sorted ∧
      resolveFinalSigningGroupOperators cfg selectedOperators operatingMembersIndexes =
        Except.ok (sorted.map (fun i => selectedOperators.getD (i - 1) 0))) := by
  refine ⟨?_, ?_, ?_, ?_⟩
  · intro hkey
    refine ⟨"could not stay in the group: unsupported group public key", ?_⟩
    unfold decideSigningGroupMemberFate
    simp [hkey]
  · intro hmis
    by_cases hkey : localGroupPublicKeyBytes = dkgResultEvent.groupPublicKeyBytes
    · refine ⟨"could not stay in the group: considered as misbehaving", ?_⟩
      unfold decideSigningGroupMemberFate
      simp [hkey, List.elem_eq_mem, hmis]
    · refine ⟨"could not stay in the group: unsupported group public key", ?_⟩
      unfold decideSigningGroupMemberFate
      simp [hkey]
  · intro hkey hmis
    constructor
    · unfold decideSigningGroupMemberFate
      simp [hkey, List.elem_eq_mem, hmis]
    · intro x
      simp [List.mem_filter, List.elem_eq_mem]
  · refine ⟨List.insertionSort (fun a b => decide (a ≤ b)) operatingMembersIndexes, ?_, ?_, ?_⟩
    · exact List.perm_insertionSort _ _
    · have := List.sorted_insertionSort
        (r := fun a b : Nat => a ≤ b) (l := operatingMembersIndexes)
      simpa using this
    · unfold resolveFinalSigningGroupOperators
      simp [hlen, Nat.not_lt.mpr hthr]

theorem member_fate_and_final_operators_witness :
    ([10, 20, 30, 40, 50].length = (5 : Nat) ∧ (2 : Nat) ≤ [5, 1, 3].length) ∧
    ((([0xAA] : List Nat) ≠ [0xBB] →
      ∃ msg, decideSigningGroupMemberFate 2 ⟨[0xBB], [4], 7⟩ [0xAA] [1, 2, 3, 4, 5] =
        Except.error msg) ∧
    ((2 : Nat) ∈ [4] →
      ∃ msg, decideSigningGroupMemberFate 2 ⟨[0xBB], [4], 7⟩ [0xAA] [1, 2, 3, 4, 5] =
        Except.error msg) ∧
    (([0xAA] : List Nat) = [0xBB] → (2 : Nat) ∉ [4] →
      decideSigningGroupMemberFate 2 ⟨[0xBB], [4], 7⟩ [0xAA] [1, 2, 3, 4, 5] =
        Except.ok ([1, 2, 3, 4, 5].filter (fun memberID => !([4] : List Nat).contains memberID)) ∧
      ∀ x, x ∈ [1, 2, 3, 4, 5].filter (fun memberID => !([4] : List Nat).contains memberID) ↔
        x ∈ [1, 2, 3, 4, 5] ∧ x ∉ ([4] : List Nat)) ∧
    (∃ sorted, sorted.Perm [5, 1, 3] ∧ List.Sorted (· ≤ ·) sorted ∧
      resolveFinalSigningGroupOperators ⟨5, 2, 10⟩ [10, 20, 30, 40, 50] [5, 1, 3] =
        Except.ok (sorted.map (fun i => ([10, 20, 30, 40, 50] : List Nat).getD (i - 1) 0)))) :=
  ⟨⟨by decide, by decide⟩,
    member_fate_and_final_operators 2 ⟨[0xBB], [4], 7⟩ [0xAA] [1, 2, 3, 4, 5] ⟨5, 2, 10⟩
      [10, 20, 30, 40, 50] [5, 1, 3] (by decide) (by decide)⟩

/-- A Bitcoin transaction outpoint (`bitcoin.TransactionOutpoint`). -/
structure TransactionOutpoint where
  transactionHash : List Nat
  outputIndex : Nat
deriving DecidableEq, Repr

/-- A Bitcoin transaction output (`bitcoin.TransactionOutput`): an `int64`
value and a public key script. -/
structure TransactionOutput where
  value : Int
  publicKeyScript : Script
deriving DecidableEq, Repr, Inhabited

/-- A Bitcoin transaction input as used by the SPV maintainer: only the
previous outpoint matters for sweep classification. -/
structure BtcTransactionInput where
  outpoint : TransactionOutpoint
deriving DecidableEq, Repr

/-- A Bitcoin transaction, reduced to the data inspected by
`isUnprovenDepositSweepTransaction`. -/
structure BtcTransaction where
  inputs : List BtcTransactionInput
  outputs : List TransactionOutput
deriving DecidableEq, Repr

/-- Bridge deposit record (`sm.chain.Deposits`): the reveal and sweep
timestamps, with `0` standing for the zero Unix time (not revealed /
not swept). -/
structure Deposit where
  revealedAt : Nat
  sweptAt : Nat
deriving DecidableEq, Repr

/-- The chain and wallet context the SPV classification reads: the deposit
record of each outpoint, and whether an outpoint's hash matches the wallet's
current on-chain main UTXO hash (`isInputCurrentWalletsMainUTXO`). -/
structure SpvChainModel where
  deposits : TransactionOutpoint → Deposit
  isMainUtxoOf : TransactionOutpoint → Bool

/-- The input loop of `isUnprovenDepositSweepTransaction` (`part_004`):
a non-revealed input must be the wallet's current main UTXO, a revealed but
already-swept input disqualifies the transaction, a revealed unswept input
marks the transaction as having deposit inputs. -/
def isUnprovenLoop (env : SpvChainModel) (inputs : List BtcTransactionInput)
    (hasDepositInputs : Bool) : Bool :=
  match inputs with
  | [] => hasDepositInputs
  | input :: rest =>
    let deposit := env.deposits input.outpoint
    if deposit.revealedAt = 0 then
      if env.isMainUtxoOf input.outpoint then isUnprovenLoop env rest hasDepositInputs
      else false
    else
      if deposit.sweptAt = 0 then isUnprovenLoop env rest true
      else false

/-- `spvMaintainer.isUnprovenDepositSweepTransaction` (`part_004`): a
transaction with other than exactly one output is never a deposit sweep;
otherwise the inputs are scanned and at least one unswept deposit input is
required. -/
def isUnprovenDepositSweepTransaction (env : SpvChainModel) (transaction : BtcTransaction) :
    Bool :=
  if transaction.outputs.length ≠ 1 then false
  else isUnprovenLoop env transaction.inputs false

lemma isUnprovenLoop_iff (env : SpvChainModel) (inputs : List BtcTransactionInput)
    (acc : Bool) :
    isUnprovenLoop env inputs acc = true ↔
      (∀ input ∈ inputs,
        ((env.deposits input.outpoint).revealedAt = 0 → env.isMainUtxoOf input.outpoint = true) ∧
        ((env.deposits input.outpoint).revealedAt ≠ 0 →
          (env.deposits input.outpoint).sweptAt = 0)) ∧
      (acc = true ∨ ∃ input ∈ inputs, (env.deposits input.outpoint).revealedAt ≠ 0) := by
  induction inputs generalizing acc with
  | nil => simp [isUnprovenLoop]
  | cons input rest ih =>
    by_cases hrev : (env.deposits input.outpoint).revealedAt = 0
    · by_cases hmain : env.isMainUtxoOf input.outpoint = true
      · rw [show isUnprovenLoop env (input :: rest) acc = isUnprovenLoop env rest acc by
          simp [isUnprovenLoop, hrev, hmain]]
        rw [ih acc]
        constructor
        · rintro ⟨hall, hdep⟩
          refine ⟨?_, ?_⟩
          · intro i hi
            rcases List.mem_cons.mp hi with rfl | hi2
            · exact ⟨fun _ => hmain, fun hc => absurd hrev hc⟩
            · exact hall i hi2
          · rcases hdep with hacc | ⟨i, hi, hne⟩
            · exact Or.inl hacc
            · exact Or.inr ⟨i, List.mem_cons_of_mem _ hi, hne⟩
        · rintro ⟨hall, hdep⟩
          refine ⟨fun i hi => hall i (List.mem_cons_of_mem _ hi), ?_⟩
          rcases hdep with hacc | ⟨i, hi, hne⟩
          · exact Or.inl hacc
          · rcases List.mem_cons.mp hi with rfl | hi2
            · exact absurd hrev hne
            · exact Or.inr ⟨i, hi2, hne⟩
      · rw [show isUnprovenLoop env (input :: rest) acc = false by
          simp [isUnprovenLoop, hrev, hmain]]
        simp only [Bool.false_eq_true, false_iff]
        rintro ⟨hall, -⟩
        exact hmain ((hall input (List.mem_cons_self _ _)).1 hrev)
    · by_cases hswept : (env.deposits input.outpoint).sweptAt = 0
      · rw [show isUnprovenLoop env (input :: rest) acc = isUnprovenLoop env rest true by
          simp [isUnprovenLoop, hrev, hswept]]
        rw [ih true]
        constructor
        · rintro ⟨hall, -⟩
          refine ⟨?_, Or.inr ⟨input, List.mem_cons_self _ _, hrev⟩⟩
          intro i hi
          rcases List.mem_cons.mp hi with rfl | hi2
          · exact ⟨fun hc => absurd hc hrev, fun _ => hswept⟩
          · exact hall i hi2
        · rintro ⟨hall, -⟩
          exact ⟨fun i hi => hall i (List.mem_cons_of_mem _ hi), Or.inl rfl⟩
      · rw [show isUnprovenLoop env (input :: rest) acc = false by
          simp [isUnprovenLoop, hrev, hswept]]
        simp only [Bool.false_eq_true, false_iff]
        rintro ⟨hall, -⟩
        exact hswept ((hall input (List.mem_cons_self _ _)).2 hrev)

/-- C7: a transaction is classified as an unproven deposit sweep iff it has
exactly one output, every input is a revealed deposit or the wallet's
current main UTXO, at least one input is an unswept revealed deposit, and no
input is an already-swept deposit. Consequently a transaction with no
deposit input, or with more than one output, is never classified. -/
theorem spv_filter_correct (env : SpvChainModel) (transaction : BtcTransaction) :
    (isUnprovenDepositSweepTransaction env transaction = true ↔
      (transaction.outputs.length = 1 ∧
        (∀ input ∈ transaction.inputs,
          (env.deposits input.outpoint).revealedAt ≠ 0 ∨
            env.isMainUtxoOf input.outpoint = true) ∧
        (∃ input ∈ transaction.inputs,
          (env.deposits input.outpoint).revealedAt ≠ 0 ∧
            (env.deposits input.outpoint).sweptAt = 0) ∧
        (∀ input ∈ transaction.inputs,
          (env.deposits input.outpoint).revealedAt ≠ 0 →
            (env.deposits input.outpoint).sweptAt = 0))) ∧
    ((∀ input ∈ transaction.inputs, (env.deposits input.outpoint).revealedAt = 0) →
      isUnprovenDepositSweepTransaction env transaction = false) ∧
    (transaction.outputs.length ≠ 1 →
      isUnprovenDepositSweepTransaction env transaction = false) := by
  have hmain : isUnprovenDepositSweepTransaction env transaction = true ↔
      (transaction.outputs.length = 1 ∧
        (∀ input ∈ transaction.inputs,
          (env.deposits input.outpoint).revealedAt ≠ 0 ∨
            env.isMainUtxoOf input.outpoint = true) ∧
        (∃ input ∈ transaction.inputs,
          (env.deposits input.outpoint).revealedAt ≠ 0 ∧
            (env.deposits input.outpoint).sweptAt = 0) ∧
        (∀ input ∈ transaction.inputs,
          (env.deposits input.outpoint).revealedAt ≠ 0 →
            (env.deposits input.outpoint).sweptAt = 0)) := by
    unfold isUnprovenDepositSweepTransaction
    by_cases hout : transaction.outputs.length = 1
    · rw [if_neg (by simp [hout]), isUnprovenLoop_iff]
      constructor
      · rintro ⟨hall, hdep⟩
        rcases hdep with hfalse | ⟨i, hi, hne⟩
        · exact absurd hfalse (by simp)
        · refine ⟨hout, ?_, ⟨i, hi, hne, (hall i hi).2 hne⟩, fun j hj => (hall j hj).2⟩
          intro j hj
          by_cases hrev : (env.deposits j.outpoint).revealedAt = 0
          · exact Or.inr ((hall j hj).1 hrev)
          · exact Or.inl hrev
      · rintro ⟨-, hall, ⟨i, hi, hne, -⟩, hsw⟩
        refine ⟨?_, Or.inr ⟨i, hi, hne⟩⟩
        intro j hj
        refine ⟨?_, hsw j hj⟩
        intro hrev
        rcases hall j hj with hne2 | hmain2
        · exact absurd hrev hne2
        · exact hmain2
    · rw [if_pos (by simp [hout])]
      simp only [Bool.false_eq_true, false_iff]
      rintro ⟨hout2, -⟩
      exact hout hout2
  refine ⟨hmain, ?_, ?_⟩
  · intro hallzero
    rcases hb : isUnprovenDepositSweepTransaction env transaction with _ | _
    · rfl
    · exfalso
      obtain ⟨-, -, ⟨i, hi, hne, -⟩, -⟩ := hmain.mp hb
      exact hne (hallzero i hi)
  · intro hout
    rcases hb : isUnprovenDepositSweepTransaction env transaction with _ | _
    · rfl
    · exact absurd (hmain.mp hb).1 hout

/-- `spvMaintainer.proveDepositSweepTransactions` (`part_004`), with the
per-transaction work (SPV proof assembly, input parsing, proof submission)
abstracted as `proveOne`. The Go loop returns the wrapped error as soon as
one transaction fails. The model additionally records the list of
transactions for which a prove attempt was made, in order, so that the
treatment of the remainder of the batch is observable. Transactions are
identified by naturals. -/
def proveDepositSweepTransactionsTrace (proveOne : Nat → Except String Unit) :
    List Nat → List Nat × Except String Unit
  | [] => ([], Except.ok ())
  | transaction :: rest =>
    match proveOne transaction with
    | Except.error e => ([transaction], Except.error e)
    | Except.ok () =>
      let result := proveDepositSweepTransactionsTrace proveOne rest
      (transaction :: result.1, result.2)

/-- Counterexample for the claim that the deposit sweep proving loop
tolerates partial failures: in the batch `[1, 2]` where transaction `1`
fails to prove, the loop returns the error, only transaction `1` is
attempted, and transaction `2` is never processed. -/
theorem spv_batch_not_fault_tolerant :
    (proveDepositSweepTransactionsTrace
        (fun transaction => if transaction = 1 then Except.error "proof failure"
          else Except.ok ())
        [1, 2]).2 = Except.error "proof failure" ∧
    (proveDepositSweepTransactionsTrace
        (fun transaction => if transaction = 1 then Except.error "proof failure"
          else Except.ok ())
        [1, 2]).1 = [1] ∧
    2 ∉ (proveDepositSweepTransactionsTrace
        (fun transaction => if transaction = 1 then Except.error "proof failure"
          else Except.ok ())
        [1, 2]).1 := by
  refine ⟨rfl, rfl, ?_⟩
  decide

/-- C8 (amended): a failure while proving or submitting one deposit sweep
transaction aborts the batch: the transactions before the failing one are
attempted, the failing one is the last attempted, the remaining ones are
not attempted in this pass, and the error is returned to the maintainer
loop (which logs it and restarts after a back-off). -/
theorem spv_batch_abort_on_failure (proveOne : Nat → Except String Unit)
    (pre post : List Nat) (transaction : Nat) (e : String)
    (hpre : ∀ t ∈ pre, proveOne t = Except.ok ())
    (hfail : proveOne transaction = Except.error e) :
    proveDepositSweepTransactionsTrace proveOne (pre ++ transaction :: post) =
      (pre ++ [transaction], Except.error e) := by
  induction pre with
  | nil =>
    simp only [List.nil_append]
    unfold proveDepositSweepTransactionsTrace
    rw [hfail]
  | cons t rest ih =>
    have ht : proveOne t = Except.ok () := hpre t (List.mem_cons_self _ _)
    have ihh := ih (fun x hx => hpre x (List.mem_cons_of_mem _ hx))
    simp only [List.cons_append]
    unfold proveDepositSweepTransactionsTrace
    rw [ht, ihh]

theorem spv_batch_abort_on_failure_witness :
    (∀ t ∈ ([5, 6] : List Nat),
      (fun transaction => if transaction = 1 then Except.error "proof failure"
        else Except.ok ()) t = Except.ok ()) ∧
    proveDepositSweepTransactionsTrace
        (fun transaction => if transaction = 1 then Except.error "proof failure"
          else Except.ok ())
        ([5, 6] ++ 1 :: [2, 3]) =
      ([5, 6] ++ [1], Except.error "proof failure") :=
  ⟨by intro t ht; fin_cases ht <;> rfl,
    spv_batch_abort_on_failure
      (fun transaction => if transaction = 1 then Except.error "proof failure"
        else Except.ok ())
      [5, 6] [2, 3] 1 "proof failure" (by intro t ht; fin_cases ht <;> rfl) (by rfl)⟩

/-- The moving funds commitment look-back period
(`MovingFundsCommitmentLookBackBlocks` in `part_004`): 30 days of blocks. -/
def MovingFundsCommitmentLookBackBlocks : Nat := 216000

/-- The past-events filter start block computed by
`getUnprovenDepositSweepTransactions` (`part_004`):
`startBlock := currentBlock - 40320` in Go `uint64` arithmetic, with no
lower-bound guard. -/
def spvFilterStartBlock (currentBlock : Nat) : Nat :=
  uint64Sub currentBlock 40320

/-- The past-events filter start block computed by
`retrieveCommittedTargetWallets` (`part_004`), which clamps at `0` when the
current block does not exceed the look-back period. -/
def movingFundsFilterStartBlock (currentBlock : Nat) : Nat :=
  if currentBlock > MovingFundsCommitmentLookBackBlocks then
    currentBlock - MovingFundsCommitmentLookBackBlocks
  else 0

/-- C10: the SPV maintainer's filter start block is `currentBlock - 40320`
when `currentBlock ≥ 40320` and wraps modulo `2 ^ 64` to a value of at least
`2 ^ 64 - 40320` when `currentBlock < 40320`, whereas the moving-funds
look-back clamps its filter start block to `0`. -/
theorem spv_filter_start_block_wraps (currentBlock : Nat) (hcb : currentBlock < 2 ^ 64) :
    (40320 ≤ currentBlock → spvFilterStartBlock currentBlock = currentBlock - 40320) ∧
    (currentBlock < 40320 →
      spvFilterStartBlock currentBlock = currentBlock + 2 ^ 64 - 40320 ∧
      2 ^ 64 - 40320 ≤ spvFilterStartBlock currentBlock) ∧
    (currentBlock ≤ MovingFundsCommitmentLookBackBlocks →
      movingFundsFilterStartBlock currentBlock = 0) ∧
    (MovingFundsCommitmentLookBackBlocks < currentBlock →
      movingFundsFilterStartBlock currentBlock =
        currentBlock - MovingFundsCommitmentLookBackBlocks) := by
  have hmod : currentBlock % 2 ^ 64 = currentBlock := Nat.mod_eq_of_lt hcb
  have hmod2 : (40320 : Nat) % 2 ^ 64 = 40320 := by norm_num
  refine ⟨?_, ?_, ?_, ?_⟩
  · intro hge
    unfold spvFilterStartBlock uint64Sub
    rw [hmod, hmod2]
    have hsplit : currentBlock + 2 ^ 64 - 40320 = (currentBlock - 40320) + 2 ^ 64 := by omega
    rw [hsplit, Nat.add_mod_right]
    exact Nat.mod_eq_of_lt (by omega)
  · intro hlt
    unfold spvFilterStartBlock uint64Sub
    rw [hmod, hmod2]
    have hval : (currentBlock + 2 ^ 64 - 40320) % 2 ^ 64 = currentBlock + 2 ^ 64 - 40320 :=
      Nat.mod_eq_of_lt (by omega)
    rw [hval]
    omega
  · intro hle
    unfold movingFundsFilterStartBlock
    rw [if_neg (by omega)]
  · intro hgt
    unfold movingFundsFilterStartBlock
    rw [if_pos hgt]

theorem spv_filter_start_block_wraps_witness :
    (1000 : Nat) < 2 ^ 64 ∧
    ((40320 ≤ (1000 : Nat) → spvFilterStartBlock 1000 = 1000 - 40320) ∧
    ((1000 : Nat) < 40320 →
      spvFilterStartBlock 1000 = 1000 + 2 ^ 64 - 40320 ∧
      2 ^ 64 - 40320 ≤ spvFilterStartBlock 1000) ∧
    ((1000 : Nat) ≤ MovingFundsCommitmentLookBackBlocks →
      movingFundsFilterStartBlock 1000 = 0) ∧
    (MovingFundsCommitmentLookBackBlocks < (1000 : Nat) →
      movingFundsFilterStartBlock 1000 = 1000 - MovingFundsCommitmentLookBackBlocks)) :=
  ⟨by norm_num, spv_filter_start_block_wraps 1000 (by norm_num)⟩

/-- An unspent transaction output (`bitcoin.UnspentTransactionOutput`):
outpoint plus an `int64` value. -/
structure UnspentTransactionOutput where
  outpoint : TransactionOutpoint
  value : Int
deriving DecidableEq, Repr

/-- The state accumulated by a `bitcoin.TransactionBuilder`: the added
inputs (as the UTXOs they point to) and the added outputs, in order. -/
structure TransactionBuilder where
  inputs : List UnspentTransactionOutput
  outputs : List TransactionOutput
deriving DecidableEq, Repr

/-- `TransactionBuilder.TotalInputsValue`: the sum of the added inputs'
values. -/
def TransactionBuilder.totalInputsValue (builder : TransactionBuilder) : Int :=
  (builder.inputs.map (fun utxo => utxo.value)).sum

/-- `TransactionBuilder.AddPublicKeyHashInput`: appends an input pointing to
the given UTXO. -/
def TransactionBuilder.addPublicKeyHashInput (builder : TransactionBuilder)
    (utxo : UnspentTransactionOutput) : TransactionBuilder :=
  { builder with inputs := builder.inputs ++ [utxo] }

/-- `TransactionBuilder.AddOutput`: appends an output. -/
def TransactionBuilder.addOutput (builder : TransactionBuilder)
    (output : TransactionOutput) : TransactionBuilder :=
  { builder with outputs := builder.outputs ++ [output] }

/-- `RedemptionTransactionShape` (`pkg/tbtc/redemption.go`): where the
change output goes in the output vector. -/
inductive RedemptionTransactionShape where
  | RedemptionChangeFirst
  | RedemptionChangeLast
deriving DecidableEq, Repr

/-- `bitcoin.PayToWitnessPublicKeyHash`: the P2WPKH script
`OP_0 <push-20> <20-byte key hash>` for the given public key hash. -/
def payToWitnessPublicKeyHash (publicKeyHash : List Nat) : Script :=
  0x00 :: 0x14 :: publicKeyHash

/-- Value of a single redemption output
(`assembleRedemptionTransaction` loop body, `pkg/tbtc/redemption.go`):
`int64(RequestedAmount - TreasuryFee) - feeShare`, where the inner
subtraction is Go `uint64` arithmetic. -/
def redemptionOutputValue (request : RedemptionRequest) (feeShare : Int) : Int :=
  toInt64 (uint64Sub request.requestedAmount request.treasuryFee) - feeShare

/-- The redemption outputs constructed by the `assembleRedemptionTransaction`
loop, in request order; `feeShares[i]` is read per Go indexing. -/
def redemptionOutputs (requests : List RedemptionRequest) (feeShares : List Int) :
    List TransactionOutput :=
  (List.range requests.length).map fun i =>
    { value := redemptionOutputValue (requests.getD i default) (feeShares.getD i 0),
      publicKeyScript := (requests.getD i default).redeemerOutputScript }

/-- The `totalFee` accumulated by the `assembleRedemptionTransaction` loop:
the sum of the fee shares consumed for the requests. -/
def redemptionTotalFee (requests : List RedemptionRequest) (feeShares : List Int) : Int :=
  ((List.range requests.length).map fun i => feeShares.getD i 0).sum

/-- `assembleRedemptionTransaction` (`pkg/tbtc/redemption.go`). The wallet
public key enters only through its hash, so the model takes
`walletPublicKeyHash = bitcoin.PublicKeyHash(walletPublicKey)` directly.
The Go variadic `shape` argument defaults to `RedemptionChangeFirst` at the
only call site; the model takes the resolved shape. Order of steps follows
the source: nil main UTXO check, empty request list check, add the main
UTXO input, build the redemption outputs and fee totals, construct the
change output when its value is positive and place it according to the
shape, then fill the builder. -/
def assembleRedemptionTransaction (walletPublicKeyHash : List Nat)
    (walletMainUtxo : Option UnspentTransactionOutput)
    (requests : List RedemptionRequest)
    (feeDistribution : List RedemptionRequest → List Int)
    (shape : RedemptionTransactionShape) : Except String TransactionBuilder :=
  match walletMainUtxo with
  | none => Except.error "wallet main UTXO is required"
  | some utxo =>
    if requests.length < 1 then
      Except.error "at least one redemption request is required"
    else
      let builder := TransactionBuilder.addPublicKeyHashInput ⟨[], []⟩ utxo
      let feeShares := feeDistribution requests
      let outputs := redemptionOutputs requests feeShares
      let totalFee := redemptionTotalFee requests feeShares
      let totalRedemptionOutputsValue := (outputs.map (fun out => out.value)).sum
      let changeOutputValue :=
        builder.totalInputsValue - totalRedemptionOutputsValue - totalFee
      let outputsWithChange :=
        if 0 < changeOutputValue then
          let changeOutput : TransactionOutput :=
            { value := changeOutputValue,
              publicKeyScript := payToWitnessPublicKeyHash walletPublicKeyHash }
          match shape with
          | RedemptionTransactionShape.RedemptionChangeFirst => changeOutput :: outputs
          | RedemptionTransactionShape.RedemptionChangeLast => outputs ++ [changeOutput]
        else outputs
      Except.ok (outputsWithChange.foldl TransactionBuilder.addOutput builder)

lemma foldl_addOutput (builder : TransactionBuilder) (l : List TransactionOutput) :
    l.foldl TransactionBuilder.addOutput builder =
      ⟨builder.inputs, builder.outputs ++ l⟩ := by
  induction l generalizing builder with
  | nil => simp
  | cons x xs ih =>
    rw [List.foldl_cons, ih]
    simp [TransactionBuilder.addOutput]

lemma toInt64_uint64Sub (a b : Nat) (hba : b ≤ a) (ha : a < 2 ^ 63) :
    toInt64 (uint64Sub a b) = (a : Int) - (b : Int) := by
  unfold toInt64 uint64Sub
  have h1 : a % 2 ^ 64 = a := Nat.mod_eq_of_lt (by omega)
  have h2 : b % 2 ^ 64 = b := Nat.mod_eq_of_lt (by omega)
  rw [h1, h2]
  have h3 : a + 2 ^ 64 - b = (a - b) + 2 ^ 64 := by omega
  rw [h3, Nat.add_mod_right, Nat.mod_eq_of_lt (show a - b < 2 ^ 64 by omega),
    Nat.mod_eq_of_lt (show a - b < 2 ^ 64 by omega),
    if_pos (show a - b < 2 ^ 63 by omega)]
  exact_mod_cast Int.ofNat_sub hba

/-- The change output value computed by `assembleRedemptionTransaction`:
main UTXO input value minus the summed redemption output values minus the
total fee. -/
def redemptionChangeValue (utxo : UnspentTransactionOutput)
    (requests : List RedemptionRequest) (feeShares : List Int) : Int :=
  utxo.value - ((redemptionOutputs requests feeShares).map (fun out => out.value)).sum -
    redemptionTotalFee requests feeShares

/-- The change output constructed by `assembleRedemptionTransaction`: the
change value locked to the wallet's P2WPKH script. -/
def redemptionChangeOutput (walletPublicKeyHash : List Nat)
    (utxo : UnspentTransactionOutput) (requests : List RedemptionRequest)
    (feeShares : List Int) : TransactionOutput :=
  { value := redemptionChangeValue utxo requests feeShares,
    publicKeyScript := payToWitnessPublicKeyHash walletPublicKeyHash }

lemma assembleRedemptionTransaction_ok (walletPublicKeyHash : List Nat)
    (utxo : UnspentTransactionOutput) (requests : List RedemptionRequest)
    (feeDistribution : List RedemptionRequest → List Int)
    (shape : RedemptionTransactionShape) (hne : requests ≠ []) :
    assembleRedemptionTransaction walletPublicKeyHash (some utxo) requests
        feeDistribution shape =
      Except.ok ⟨[utxo],
        if 0 < redemptionChangeValue utxo requests (feeDistribution requests) then
          match shape with
          | RedemptionTransactionShape.RedemptionChangeFirst =>
              redemptionChangeOutput walletPublicKeyHash utxo requests
                  (feeDistribution requests) ::
                redemptionOutputs requests (feeDistribution requests)
          | RedemptionTransactionShape.RedemptionChangeLast =>
              redemptionOutputs requests (feeDistribution requests) ++
                [redemptionChangeOutput walletPublicKeyHash utxo requests
                  (feeDistribution requests)]
        else redemptionOutputs requests (feeDistribution requests)⟩ := by
  have hlen : ¬ requests.length < 1 := by
    have := List.length_pos.mpr hne
    omega
  unfold assembleRedemptionTransaction
  simp only [if_neg hlen, TransactionBuilder.addPublicKeyHashInput,
    TransactionBuilder.totalInputsValue,
    List.nil_append, List.map_cons, List.map_nil, List.sum_cons, List.sum_nil, add_zero,
    foldl_addOutput, redemptionChangeValue, redemptionChangeOutput]

lemma redemptionOutputs_entry (requests : List RedemptionRequest) (feeShares : List Int)
    (i : Nat) (hi : i < requests.length)
    (hfit : ∀ r ∈ requests, r.treasuryFee ≤ r.requestedAmount ∧ r.requestedAmount < 2 ^ 63) :
    (redemptionOutputs requests feeShares)[i]? =
      some { value := ((requests.getD i default).requestedAmount : Int) -
               ((requests.getD i default).treasuryFee : Int) - feeShares.getD i 0,
             publicKeyScript := (requests.getD i default).redeemerOutputScript } := by
  have hmem : requests.getD i default ∈ requests := by
    rw [List.getD_eq_getElem requests default hi]
    exact List.getElem_mem hi
  obtain ⟨hba, ha⟩ := hfit _ hmem
  unfold redemptionOutputs
  rw [List.getElem?_map _ _ i]
  simp only [List.getElem?_range, hi, if_pos, Option.map_some]
  simp only [Option.map_some', redemptionOutputValue]
  rw [toInt64_uint64Sub _ _ hba ha]

/-- C3: for every non-empty request list and present main UTXO (with amounts
in the representable `uint64`/`int64` range), `assembleRedemptionTransaction`
succeeds, the built transaction has exactly one input, namely the wallet
main UTXO, and, for each request `i` in order, carries one redemption
output paying that request's redeemer output script the value
`RequestedAmount - TreasuryFee - FeeShare[i]`; the output vector is those
outputs, possibly with a single change output prepended or appended.
For a nil main UTXO or an empty request list it returns an error. -/
theorem redemption_tx_assembly (walletPublicKeyHash : List Nat)
    (utxo : UnspentTransactionOutput) (requests : List RedemptionRequest)
    (feeDistribution : List RedemptionRequest → List Int)
    (shape : RedemptionTransactionShape)
    (hne : requests ≠ [])
    (hfit : ∀ r ∈ requests, r.treasuryFee ≤ r.requestedAmount ∧ r.requestedAmount < 2 ^ 63) :
    (∃ builder,
      assembleRedemptionTransaction walletPublicKeyHash (some utxo) requests
          feeDistribution shape = Except.ok builder ∧
      builder.inputs = [utxo] ∧
      (redemptionOutputs requests (feeDistribution requests)).length = requests.length ∧
      (∀ i, i < requests.length →
        (redemptionOutputs requests (feeDistribution requests))[i]? =
          some { value := ((requests.getD i default).requestedAmount : Int) -
                   ((requests.getD i default).treasuryFee : Int) -
                   (feeDistribution requests).getD i 0,
                 publicKeyScript := (requests.getD i default).redeemerOutputScript }) ∧
      (builder.outputs = redemptionOutputs requests (feeDistribution requests) ∨
        (∃ changeOutput,
          builder.outputs =
              changeOutput :: redemptionOutputs requests (feeDistribution requests) ∨
            builder.outputs =
              redemptionOutputs requests (feeDistribution requests) ++ [changeOutput]))) ∧
    (assembleRedemptionTransaction walletPublicKeyHash none requests feeDistribution shape =
      Except.error "wallet main UTXO is required") ∧
    (∀ u, assembleRedemptionTransaction walletPublicKeyHash (some u) [] feeDistribution
        shape =
      Except.error "at least one redemption request is required") := by
  refine ⟨?_, rfl, fun u => rfl⟩
  refine ⟨_, assembleRedemptionTransaction_ok walletPublicKeyHash utxo requests
    feeDistribution shape hne, rfl, ?_, ?_, ?_⟩
  · unfold redemptionOutputs
    simp
  · intro i hi
    exact redemptionOutputs_entry requests (feeDistribution requests) i hi hfit
  · by_cases hchange : 0 < redemptionChangeValue utxo requests (feeDistribution requests)
    · rw [if_pos hchange]
      cases shape
      · exact Or.inr ⟨_, Or.inl rfl⟩
      · exact Or.inr ⟨_, Or.inr rfl⟩
    · rw [if_neg hchange]
      exact Or.inl rfl

theorem redemption_tx_assembly_witness :
    (([⟨[0xA1], 1000000, 1000, 5000⟩, ⟨[0xA2], 2000000, 1000, 5000⟩] :
        List RedemptionRequest) ≠ [] ∧
      ∀ r ∈ ([⟨[0xA1], 1000000, 1000, 5000⟩, ⟨[0xA2], 2000000, 1000, 5000⟩] :
          List RedemptionRequest),
        r.treasuryFee ≤ r.requestedAmount ∧ r.requestedAmount < 2 ^ 63) ∧
    (∃ builder,
      assembleRedemptionTransaction [0x77] (some ⟨⟨[0xFF], 0⟩, 4000000⟩)
          [⟨[0xA1], 1000000, 1000, 5000⟩, ⟨[0xA2], 2000000, 1000, 5000⟩]
          (withRedemptionTotalFee 1001) RedemptionTransactionShape.RedemptionChangeFirst =
        Except.ok builder ∧
      builder.inputs = [⟨⟨[0xFF], 0⟩, 4000000⟩] ∧
      (redemptionOutputs [⟨[0xA1], 1000000, 1000, 5000⟩, ⟨[0xA2], 2000000, 1000, 5000⟩]
        (withRedemptionTotalFee 1001
          [⟨[0xA1], 1000000, 1000, 5000⟩, ⟨[0xA2], 2000000, 1000, 5000⟩])).length = 2 ∧
      (∀ i, i < 2 →
        (redemptionOutputs [⟨[0xA1], 1000000, 1000, 5000⟩, ⟨[0xA2], 2000000, 1000, 5000⟩]
          (withRedemptionTotalFee 1001
            [⟨[0xA1], 1000000, 1000, 5000⟩, ⟨[0xA2], 2000000, 1000, 5000⟩]))[i]? =
          some { value := ((([⟨[0xA1], 1000000, 1000, 5000⟩, ⟨[0xA2], 2000000, 1000, 5000⟩] :
                     List RedemptionRequest).getD i default).requestedAmount : Int) -
                   ((([⟨[0xA1], 1000000, 1000, 5000⟩, ⟨[0xA2], 2000000, 1000, 5000⟩] :
                     List RedemptionRequest).getD i default).treasuryFee : Int) -
                   (withRedemptionTotalFee 1001
                     [⟨[0xA1], 1000000, 1000, 5000⟩, ⟨[0xA2], 2000000, 1000, 5000⟩]).getD i 0,
                 publicKeyScript := (([⟨[0xA1], 1000000, 1000, 5000⟩,
                     ⟨[0xA2], 2000000, 1000, 5000⟩] :
                   List RedemptionRequest).getD i default).redeemerOutputScript }) ∧
      (builder.outputs = redemptionOutputs
          [⟨[0xA1], 1000000, 1000, 5000⟩, ⟨[0xA2], 2000000, 1000, 5000⟩]
          (withRedemptionTotalFee 1001
            [⟨[0xA1], 1000000, 1000, 5000⟩, ⟨[0xA2], 2000000, 1000, 5000⟩]) ∨
        (∃ changeOutput,
          builder.outputs = changeOutput :: redemptionOutputs
              [⟨[0xA1], 1000000, 1000, 5000⟩, ⟨[0xA2], 2000000, 1000, 5000⟩]
              (withRedemptionTotalFee 1001
                [⟨[0xA1], 1000000, 1000, 5000⟩, ⟨[0xA2], 2000000, 1000, 5000⟩]) ∨
            builder.outputs = redemptionOutputs
              [⟨[0xA1], 1000000, 1000, 5000⟩, ⟨[0xA2], 2000000, 1000, 5000⟩]
              (withRedemptionTotalFee 1001
                [⟨[0xA1], 1000000, 1000, 5000⟩, ⟨[0xA2], 2000000, 1000, 5000⟩]) ++
              [changeOutput]))) :=
  ⟨⟨by decide, by decide⟩,
    (redemption_tx_assembly [0x77] ⟨⟨[0xFF], 0⟩, 4000000⟩
      [⟨[0xA1], 1000000, 1000, 5000⟩, ⟨[0xA2], 2000000, 1000, 5000⟩]
      (withRedemptionTotalFee 1001) RedemptionTransactionShape.RedemptionChangeFirst
      (by decide) (by decide)).1⟩

/-- C4: in the transaction built by `assembleRedemptionTransaction`, the
change output (wallet P2WPKH, carrying the input value minus the redemption
output values minus the total fee) is present iff the change value is
strictly positive; when present it is the first output under
`RedemptionChangeFirst` and the last under `RedemptionChangeLast`, and when
the change value is not positive the output vector is exactly the
redemption outputs. -/
theorem redemption_change_placement (walletPublicKeyHash : List Nat)
    (utxo : UnspentTransactionOutput) (requests : List RedemptionRequest)
    (feeDistribution : List RedemptionRequest → List Int)
    (shape : RedemptionTransactionShape) (hne : requests ≠ []) :
    ∃ builder,
      assembleRedemptionTransaction walletPublicKeyHash (some utxo) requests
          feeDistribution shape = Except.ok builder ∧
      (0 < redemptionChangeValue utxo requests (feeDistribution requests) →
        (shape = RedemptionTransactionShape.RedemptionChangeFirst →
          builder.outputs =
            redemptionChangeOutput walletPublicKeyHash utxo requests
                (feeDistribution requests) ::
              redemptionOutputs requests (feeDistribution requests)) ∧
        (shape = RedemptionTransactionShape.RedemptionChangeLast →
          builder.outputs =
            redemptionOutputs requests (feeDistribution requests) ++
              [redemptionChangeOutput walletPublicKeyHash utxo requests
                (feeDistribution requests)])) ∧
      (redemptionChangeValue utxo requests (feeDistribution requests) ≤ 0 →
        builder.outputs = redemptionOutputs requests (feeDistribution requests)) := by
  refine ⟨_, assembleRedemptionTransaction_ok walletPublicKeyHash utxo requests
    feeDistribution shape hne, ?_, ?_⟩
  · intro hchange
    rw [if_pos hchange]
    constructor
    · rintro rfl
      rfl
    · rintro rfl
      rfl
  · intro hchange
    rw [if_neg (by omega)]

theorem redemption_change_placement_witness :
    (([⟨[0xA1], 1000000, 1000, 5000⟩] : List RedemptionRequest) ≠ []) ∧
    (∃ builder,
      assembleRedemptionTransaction [0x77] (some ⟨⟨[0xFF], 0⟩, 4000000⟩)
          [⟨[0xA1], 1000000, 1000, 5000⟩] (withRedemptionTotalFee 1000)
          RedemptionTransactionShape.RedemptionChangeLast = Except.ok builder ∧
      (0 < redemptionChangeValue ⟨⟨[0xFF], 0⟩, 4000000⟩ [⟨[0xA1], 1000000, 1000, 5000⟩]
          (withRedemptionTotalFee 1000 [⟨[0xA1], 1000000, 1000, 5000⟩]) →
        (RedemptionTransactionShape.RedemptionChangeLast =
            RedemptionTransactionShape.RedemptionChangeFirst →
          builder.outputs =
            redemptionChangeOutput [0x77] ⟨⟨[0xFF], 0⟩, 4000000⟩
                [⟨[0xA1], 1000000, 1000, 5000⟩]
                (withRedemptionTotalFee 1000 [⟨[0xA1], 1000000, 1000, 5000⟩]) ::
              redemptionOutputs [⟨[0xA1], 1000000, 1000, 5000⟩]
                (withRedemptionTotalFee 1000 [⟨[0xA1], 1000000, 1000, 5000⟩])) ∧
        (RedemptionTransactionShape.RedemptionChangeLast =
            RedemptionTransactionShape.RedemptionChangeLast →
          builder.outputs =
            redemptionOutputs [⟨[0xA1], 1000000, 1000, 5000⟩]
                (withRedemptionTotalFee 1000 [⟨[0xA1], 1000000, 1000, 5000⟩]) ++
              [redemptionChangeOutput [0x77] ⟨⟨[0xFF], 0⟩, 4000000⟩
                [⟨[0xA1], 1000000, 1000, 5000⟩]
                (withRedemptionTotalFee 1000 [⟨[0xA1], 1000000, 1000, 5000⟩])])) ∧
      (redemptionChangeValue ⟨⟨[0xFF], 0⟩, 4000000⟩ [⟨[0xA1], 1000000, 1000, 5000⟩]
          (withRedemptionTotalFee 1000 [⟨[0xA1], 1000000, 1000, 5000⟩]) ≤ 0 →
        builder.outputs = redemptionOutputs [⟨[0xA1], 1000000, 1000, 5000⟩]
          (withRedemptionTotalFee 1000 [⟨[0xA1], 1000000, 1000, 5000⟩]))) :=
  ⟨by decide,
    redemption_change_placement [0x77] ⟨⟨[0xFF], 0⟩, 4000000⟩
      [⟨[0xA1], 1000000, 1000, 5000⟩] (withRedemptionTotalFee 1000)
      RedemptionTransactionShape.RedemptionChangeLast (by decide)⟩

theorem withRedemptionTotalFee_conserves_witness :
    (([⟨[1], 10, 1, 5⟩, ⟨[2], 10, 1, 5⟩, ⟨[3], 10, 1, 5⟩, ⟨[4], 10, 1, 5⟩] :
        List RedemptionRequest) ≠ [] ∧ (0 : Int) ≤ 1001) ∧
    ((withRedemptionTotalFee 1001
        [⟨[1], 10, 1, 5⟩, ⟨[2], 10, 1, 5⟩, ⟨[3], 10, 1, 5⟩, ⟨[4], 10, 1, 5⟩]).length =
      ([⟨[1], 10, 1, 5⟩, ⟨[2], 10, 1, 5⟩, ⟨[3], 10, 1, 5⟩, ⟨[4], 10, 1, 5⟩] :
        List RedemptionRequest).length ∧
    withRedemptionTotalFee 1001
        [⟨[1], 10, 1, 5⟩, ⟨[2], 10, 1, 5⟩, ⟨[3], 10, 1, 5⟩, ⟨[4], 10, 1, 5⟩] =
      List.replicate (([⟨[1], 10, 1, 5⟩, ⟨[2], 10, 1, 5⟩, ⟨[3], 10, 1, 5⟩, ⟨[4], 10, 1, 5⟩] :
            List RedemptionRequest).length - 1)
          (1001 / (([⟨[1], 10, 1, 5⟩, ⟨[2], 10, 1, 5⟩, ⟨[3], 10, 1, 5⟩, ⟨[4], 10, 1, 5⟩] :
            List RedemptionRequest).length : Int)) ++
        [1001 / (([⟨[1], 10, 1, 5⟩, ⟨[2], 10, 1, 5⟩, ⟨[3], 10, 1, 5⟩, ⟨[4], 10, 1, 5⟩] :
            List RedemptionRequest).length : Int) +
          1001 % (([⟨[1], 10, 1, 5⟩, ⟨[2], 10, 1, 5⟩, ⟨[3], 10, 1, 5⟩, ⟨[4], 10, 1, 5⟩] :
            List RedemptionRequest).length : Int)] ∧
    (withRedemptionTotalFee 1001
        [⟨[1], 10, 1, 5⟩, ⟨[2], 10, 1, 5⟩, ⟨[3], 10, 1, 5⟩, ⟨[4], 10, 1, 5⟩]).sum = 1001) :=
  ⟨⟨by decide, by decide⟩,
    withRedemptionTotalFee_conserves 1001
      [⟨[1], 10, 1, 5⟩, ⟨[2], 10, 1, 5⟩, ⟨[3], 10, 1, 5⟩, ⟨[4], 10, 1, 5⟩]
      (by decide) (by decide)⟩
